import Mathlib

/-!
# FerretDB — verification of spec claims against the source

Shallow embedding of the FerretDB test-utility layer
(`internal/util/testutil/pg.go`), of the storage-mapper error discipline it
exercises, and of the binary document codec described by the specification.

Conventions of the embedding:
* Go strings are modelled as `List Char` where per-character transformations
  matter (`strings.ToLower`, `strings.ReplaceAll` with one-character patterns),
  and as Lean `String` where only concatenation and equality matter.
* `tb.Name()` is the only input the name-mapping functions read, so they are
  embedded as functions of that name.
* A failing `require` assertion aborts the surrounding Go function; a function
  that contains one is embedded with an `Option`/`Except` result, `none` /
  `.error` standing for the aborted run.
-/

namespace FerretDB

/-! ## `internal/util/testutil/pg.go` — names and connection strings -/

/-- Byte size of one character in UTF-8; Go `len` on strings counts bytes. -/
def utf8Size (c : Char) : Nat :=
  if c.val < 128 then 1 else if c.val < 2048 then 2 else if c.val < 65536 then 3 else 4

/-- Go `len` of a string: its UTF-8 byte length. -/
def byteLen (s : List Char) : Nat := (s.map utf8Size).sum

/-- Go `strings.ReplaceAll` with a one-character pattern and replacement. -/
def replaceAllChar (a b : Char) (s : List Char) : List Char :=
  s.map (fun c => if c = a then b else c)

/-- Go `strings.ToLower`, restricted to the ASCII mapping (`Char.toLower`);
the test names the repository feeds it are ASCII. -/
def goToLower (s : List Char) : List Char := s.map Char.toLower

/-- `TableName` (pg.go): lowercase the test name, then replace every `/` and
every space with `-`. -/
def TableName (name : List Char) : List Char :=
  replaceAllChar ' ' '-' (replaceAllChar '/' '-' (goToLower name))

/-- `SchemaName` (pg.go): the source repeats the `TableName` transformation
inline (lowercase, replace `/` and space with `-`), then asserts
`require.Less(tb, len(name), 64)`; `none` models the failed assertion. -/
def SchemaName (name : List Char) : Option (List Char) :=
  if byteLen (replaceAllChar ' ' '-' (replaceAllChar '/' '-' (goToLower name))) < 64
  then some (replaceAllChar ' ' '-' (replaceAllChar '/' '-' (goToLower name)))
  else none

/-- `PoolOpts` (pg.go): options for creating a connection pool. -/
structure PoolOpts where
  ReadOnly : Bool
deriving DecidableEq

/-- `PoolConnString` (pg.go): a `nil` options pointer is replaced by
`new(PoolOpts)` (zero value, `ReadOnly = false`); the username is `postgres`,
or `readonly` when `opts.ReadOnly` is set.  The `testing.Short()` skip is a
test-harness concern outside the returned value and is not modelled. -/
def PoolConnString (opts : Option PoolOpts) : String :=
  let opts := match opts with
    | none => { ReadOnly := false : PoolOpts }
    | some o => o
  let username := if opts.ReadOnly then "readonly" else "postgres"
  "postgres://" ++ username ++ "@127.0.0.1:5432/ferretdb?pool_min_conns=1"

/-- Decidable suffix check on strings, used to state that every connection
string requests `pool_min_conns=1`. -/
def strEndsWith (s suffix : String) : Bool := suffix.data.isSuffixOf s.data

end FerretDB

namespace FerretDB

/-! ## Claims about the name mappings and connection strings -/

/-- C10: `PoolConnString` is total on a `nil` options pointer — `nil` is
treated exactly as the default (non-read-only) options value, and the call
returns the privileged-user connection string. -/
theorem poolConnString_nil_total :
    PoolConnString none = PoolConnString (some { ReadOnly := false }) ∧
    PoolConnString none = "postgres://postgres@127.0.0.1:5432/ferretdb?pool_min_conns=1" :=
  ⟨rfl, rfl⟩

/-- C6: `PoolConnString` selects the backend credential by role — the
`readonly` user exactly when `opts.ReadOnly` is true, the privileged
`postgres` user otherwise — and the returned string always requests
`pool_min_conns=1`. -/
theorem poolConnString_role_and_min_conns (opts : Option PoolOpts) :
    PoolConnString opts =
      (if (opts.getD { ReadOnly := false }).ReadOnly
       then "postgres://readonly@127.0.0.1:5432/ferretdb?pool_min_conns=1"
       else "postgres://postgres@127.0.0.1:5432/ferretdb?pool_min_conns=1") ∧
    strEndsWith (PoolConnString opts) "pool_min_conns=1" = true := by
  match opts with
  | none => exact ⟨rfl, by decide⟩
  | some o =>
    cases h : o.ReadOnly <;>
      simp [PoolConnString, strEndsWith, Option.getD, h] <;> decide

/-- C7: name resolution is deterministic — `SchemaName` and `TableName` depend
only on the test name (the source reads nothing but `tb.Name()`), so two calls
with the same name return the same relational identifier. -/
theorem name_resolution_deterministic (n₁ n₂ : List Char) (h : n₁ = n₂) :
    SchemaName n₁ = SchemaName n₂ ∧ TableName n₁ = TableName n₂ := by
  subst h; exact ⟨rfl, rfl⟩

/-- Witness for `name_resolution_deterministic` at the concrete test name
`TestFoo`. -/
theorem name_resolution_deterministic_witness :
    SchemaName ['T', 'e', 's', 't', 'F', 'o', 'o'] = SchemaName ['T', 'e', 's', 't', 'F', 'o', 'o'] ∧
    TableName ['T', 'e', 's', 't', 'F', 'o', 'o'] = TableName ['T', 'e', 's', 't', 'F', 'o', 'o'] :=
  name_resolution_deterministic ['T', 'e', 's', 't', 'F', 'o', 'o'] ['T', 'e', 's', 't', 'F', 'o', 'o'] rfl

/-- C9: `SchemaName` and `TableName` compute the same transformation —
`SchemaName` returns exactly the `TableName` string whenever its length
assertion passes, and the assertion is the only difference between the two. -/
theorem schemaName_tableName_equiv (n : List Char) (s : List Char) :
    SchemaName n = some s ↔ (s = TableName n ∧ byteLen (TableName n) < 64) := by
  unfold SchemaName TableName
  split
  · rename_i h
    constructor
    · intro hs
      exact ⟨(Option.some_inj.mp hs).symm, h⟩
    · intro ⟨hs, _⟩
      exact congrArg some hs.symm
  · rename_i h
    constructor
    · intro hs
      exact absurd hs (by simp)
    · intro ⟨_, hlt⟩
      exact absurd hlt h

/-- Witness for `schemaName_tableName_equiv` at the concrete test name
`TestFoo/Sub Case`. -/
theorem schemaName_tableName_equiv_witness :
    SchemaName "TestFoo/Sub Case".data = some "testfoo-sub-case".data :=
  (schemaName_tableName_equiv "TestFoo/Sub Case".data "testfoo-sub-case".data).mpr
    (by constructor <;> decide)

/-- C3 counterexample: the test names `Test` and `test` differ only in letter
case and are distinct, yet `SchemaName` and `TableName` resolve both to the
same relational identifier `test` — the mapping lowercases the name, so it is
not case-sensitive as the claim states. -/
theorem case_sensitivity_counterexample :
    goToLower ['T', 'e', 's', 't'] = goToLower ['t', 'e', 's', 't'] ∧
    (['T', 'e', 's', 't'] : List Char) ≠ ['t', 'e', 's', 't'] ∧
    SchemaName ['T', 'e', 's', 't'] = SchemaName ['t', 'e', 's', 't'] ∧
    TableName ['T', 'e', 's', 't'] = TableName ['t', 'e', 's', 't'] := by
  refine ⟨by decide, by decide, by decide, by decide⟩

/-- C3 (amended): the name-to-relational-identifier mapping is
case-insensitive — it lowercases the name first, so any two test names that
differ only in letter case resolve to the same relational identifier. -/
theorem names_equal_up_to_case_same_identifier (s t : List Char)
    (h : goToLower s = goToLower t) :
    SchemaName s = SchemaName t ∧ TableName s = TableName t := by
  unfold SchemaName TableName
  rw [h]
  exact ⟨rfl, rfl⟩

/-- Witness for `names_equal_up_to_case_same_identifier` at the concrete pair
`TestAbc` / `testABC`. -/
theorem names_equal_up_to_case_same_identifier_witness :
    SchemaName "TestAbc".data = SchemaName "testABC".data ∧
    TableName "TestAbc".data = TableName "testABC".data :=
  names_equal_up_to_case_same_identifier "TestAbc".data "testABC".data (by decide)

/-- C5 counterexample: a test name of 64 `a` characters — `TableName` has no
length check and returns a 64-byte identifier, refuting the claim that the
identifier produced for a table is strictly shorter than 64 characters for
every test name. -/
theorem tableName_length_counterexample :
    ¬ byteLen (TableName (List.replicate 64 'a')) < 64 := by
  decide

/-- C5 (amended): the 64-byte bound is enforced only for schemas —
whenever `SchemaName` produces an identifier its byte length is strictly
below 64, and for every test name whose transformed form is within the bound
the assertion passes and the identifier is produced; `TableName` applies no
length check. -/
theorem schemaName_length_bounded (n : List Char) :
    (∀ s, SchemaName n = some s → byteLen s < 64) ∧
    (byteLen (TableName n) < 64 → SchemaName n = some (TableName n)) := by
  constructor
  · intro s hs
    have := (schemaName_tableName_equiv n s).mp hs
    rw [this.1]
    exact this.2
  · intro h
    exact (schemaName_tableName_equiv n (TableName n)).mpr ⟨rfl, h⟩

/-- Witness for `schemaName_length_bounded` at the concrete test name
`TestEnvData`. -/
theorem schemaName_length_bounded_witness :
    SchemaName "TestEnvData".data = some (TableName "TestEnvData".data) ∧
    byteLen (TableName "TestEnvData".data) < 64 :=
  ⟨(schemaName_length_bounded "TestEnvData".data).2 (by decide),
   (schemaName_length_bounded "TestEnvData".data).1 (TableName "TestEnvData".data)
     ((schemaName_length_bounded "TestEnvData".data).2 (by decide))⟩

/-! ## Storage-mapper errors and the drop-if-exists callers

`pgdb.Pool` (`DropDatabase`, `DropCollection`, `CreateDatabase`,
`CreateCollection`, `ErrTableNotExist`) is not part of the provided sources;
it is modelled from the spec below.  The callers `Schema` and `Table` are in
`internal/util/testutil/pg.go` and are embedded from that source. -/

/-- Semantic kind of a storage-mapper error (the spec's tagged error-kind
enumeration: `NamespaceNotFound`, `NamespaceAlreadyExists`, generic). -/
inductive ErrKind where
  | notFound
  | alreadyExists
  | generic
deriving DecidableEq

/-- A Go error value: a semantic kind plus the message that distinguishes one
allocated error value from another.  Go's `err == sentinel` on such values is
identity comparison, modelled as equality of the whole structure. -/
structure GoErr where
  kind : ErrKind
  msg : String
deriving DecidableEq

/-- Modelled from the spec: `pgdb.ErrTableNotExist`, the distinguished
not-found sentinel the pool returns when a dropped namespace is absent, and
the exact value `Schema`/`Table` compare against. -/
def ErrTableNotExist : GoErr := ⟨.notFound, "collection/table does not exist"⟩

/-- The relational catalog: which schemas exist, and which (schema, table)
pairs exist. -/
structure Catalog where
  schemas : List (List Char)
  tables : List (List Char × List Char)
deriving DecidableEq

/-- Modelled from the spec: `Pool.DropDatabase` issues a cascading schema
drop; on a nonexistent schema it returns the distinguished not-found error
(`ErrTableNotExist`), not a generic failure, leaving the catalog unmodified. -/
def DropDatabase (c : Catalog) (db : List Char) : Except GoErr Catalog :=
  if db ∈ c.schemas then
    .ok ⟨c.schemas.erase db, c.tables.filter (fun t => t.1 ≠ db)⟩
  else
    .error ErrTableNotExist

/-- Modelled from the spec: `Pool.DropCollection` issues a table drop; on a
nonexistent table it returns the same distinguished not-found error. -/
def DropCollection (c : Catalog) (db table : List Char) : Except GoErr Catalog :=
  if (db, table) ∈ c.tables then
    .ok ⟨c.schemas, c.tables.erase (db, table)⟩
  else
    .error ErrTableNotExist

/-- Modelled from the spec: `Pool.CreateDatabase` issues schema creation,
idempotent — an already-existing schema is treated as success. -/
def CreateDatabase (c : Catalog) (db : List Char) : Except GoErr Catalog :=
  if db ∈ c.schemas then .ok c else .ok ⟨db :: c.schemas, c.tables⟩

/-- Modelled from the spec: `Pool.CreateCollection` issues table creation and
fails with the distinguished already-exists error if the table is present. -/
def CreateCollection (c : Catalog) (db table : List Char) : Except GoErr Catalog :=
  if (db, table) ∈ c.tables then
    .error ⟨.alreadyExists, "table already exists"⟩
  else
    .ok ⟨c.schemas, (db, table) :: c.tables⟩

/-- The error-handling step both `Schema` and `Table` (pg.go) perform after a
drop: `if err == pgdb.ErrTableNotExist { err = nil }` — exactly the sentinel
value is swallowed (the drop-if-exists policy), every other error is kept; on
a swallowed error the caller proceeds with the unchanged catalog `c`. -/
def swallowNotExist (r : Except GoErr Catalog) (c : Catalog) : Except GoErr Catalog :=
  match r with
  | .ok c' => .ok c'
  | .error e => if e = ErrTableNotExist then .ok c else .error e

/-- `Schema` (pg.go): compute the schema name, drop the database swallowing
only the not-found sentinel, then create it; `require.NoError` surfaces any
other error (modelled as `.error`). -/
def Schema (c : Catalog) (testName : List Char) : Except GoErr (Catalog × List Char) :=
  match SchemaName testName with
  | none => .error ⟨.generic, "schema name too long"⟩
  | some schema =>
    match swallowNotExist (DropDatabase c schema) c with
    | .error e => .error e
    | .ok c₁ =>
      match CreateDatabase c₁ schema with
      | .error e => .error e
      | .ok c₂ => .ok (c₂, schema)

/-- `Table` (pg.go): compute the table name, drop the collection swallowing
only the not-found sentinel, then create it. -/
def Table (c : Catalog) (testName db : List Char) : Except GoErr (Catalog × List Char) :=
  match swallowNotExist (DropCollection c db (TableName testName)) c with
  | .error e => .error e
  | .ok c₁ =>
    match CreateCollection c₁ db (TableName testName) with
    | .error e => .error e
    | .ok c₂ => .ok (c₂, TableName testName)

/-- C1: dropping a nonexistent namespace returns the distinguished not-found
error (of kind `notFound`, not a generic failure); the drop-if-exists step of
`Schema`/`Table` treats exactly that error as success and proceeds — `Schema`
on an absent schema completes by creating it — while any other error is
surfaced. -/
theorem drop_nonexistent_distinguished (c : Catalog) (db table : List Char) :
    (db ∉ c.schemas →
      DropDatabase c db = .error ErrTableNotExist ∧ ErrTableNotExist.kind = .notFound) ∧
    ((db, table) ∉ c.tables → DropCollection c db table = .error ErrTableNotExist) ∧
    swallowNotExist (.error ErrTableNotExist) c = .ok c ∧
    (∀ e : GoErr, e ≠ ErrTableNotExist → swallowNotExist (.error e) c = .error e) ∧
    (∀ n, SchemaName n = some db → db ∉ c.schemas →
      Schema c n = .ok (⟨db :: c.schemas, c.tables⟩, db)) := by
  refine ⟨?_, ?_, ?_, ?_, ?_⟩
  · intro h
    exact ⟨by simp [DropDatabase, h], rfl⟩
  · intro h
    simp [DropCollection, h]
  · simp [swallowNotExist]
  · intro e he
    simp [swallowNotExist, he]
  · intro n hn h
    simp [Schema, hn, swallowNotExist, DropDatabase, CreateDatabase, h]

/-- Witness for `drop_nonexistent_distinguished`: on the empty catalog,
dropping the absent schema `testdb` returns the sentinel, the sentinel is
swallowed, a generic error is surfaced, and `Schema` for test name `TestDb`
creates schema `testdb`. -/
theorem drop_nonexistent_distinguished_witness :
    DropDatabase ⟨[], []⟩ "testdb".data = .error ErrTableNotExist ∧
    DropCollection ⟨[], []⟩ "testdb".data "tbl".data = .error ErrTableNotExist ∧
    swallowNotExist (.error ErrTableNotExist) ⟨[], []⟩ = .ok ⟨[], []⟩ ∧
    swallowNotExist (.error ⟨.generic, "boom"⟩) ⟨[], []⟩ = .error ⟨.generic, "boom"⟩ ∧
    Schema ⟨[], []⟩ "TestDb".data = .ok (⟨["testdb".data], []⟩, "testdb".data) :=
  ⟨((drop_nonexistent_distinguished ⟨[], []⟩ "testdb".data "tbl".data).1 (by decide)).1,
   (drop_nonexistent_distinguished ⟨[], []⟩ "testdb".data "tbl".data).2.1 (by decide),
   (drop_nonexistent_distinguished ⟨[], []⟩ "testdb".data "tbl".data).2.2.1,
   (drop_nonexistent_distinguished ⟨[], []⟩ "testdb".data "tbl".data).2.2.2.1
     ⟨.generic, "boom"⟩ (by decide),
   (drop_nonexistent_distinguished ⟨[], []⟩ "testdb".data "tbl".data).2.2.2.2
     "TestDb".data (by decide) (by decide)⟩

/-- An error value of the same semantic kind as the sentinel (`notFound`) but
a different value, as a concurrent or wrapped failure would produce. -/
def otherNotFound : GoErr := ⟨.notFound, "database does not exist"⟩

/-- C4 counterexample: `otherNotFound` is semantically of the not-found kind,
yet the drop-if-exists step surfaces it instead of treating it as success —
the callers compare by identity with the sentinel value, not by error kind. -/
theorem error_kind_branching_counterexample :
    otherNotFound.kind = ErrTableNotExist.kind ∧
    otherNotFound ≠ ErrTableNotExist ∧
    swallowNotExist (.error otherNotFound) ⟨[], []⟩ = .error otherNotFound := by
  refine ⟨rfl, by decide, ?_⟩
  simp [swallowNotExist, otherNotFound, ErrTableNotExist]

/-- C4 (amended): the drop-if-exists callers branch by identity comparison
(Go `==`) with the sentinel `ErrTableNotExist` — an error is treated as
success exactly when it is that identical value; errors of the same kind but
a different value are surfaced. -/
theorem swallow_exactly_sentinel (e : GoErr) (c : Catalog) :
    swallowNotExist (.error e) c = .ok c ↔ e = ErrTableNotExist := by
  by_cases h : e = ErrTableNotExist <;> simp [swallowNotExist, h]

/-- Witness for `swallow_exactly_sentinel` at the sentinel itself on the empty
catalog. -/
theorem swallow_exactly_sentinel_witness :
    swallowNotExist (.error ErrTableNotExist) ⟨[], []⟩ = .ok ⟨[], []⟩ :=
  (swallow_exactly_sentinel ErrTableNotExist ⟨[], []⟩).mpr rfl

/-! ## Documents

The supported value kinds of the spec's document model: number variants
(double, int32, int64), string, boolean, null, nested document, array,
binary, date-time, identifier (ObjectId), decimal, regex, timestamp.
Fixed-width numeric payloads are carried as their bit patterns
(`Nat` below the corresponding power of two); strings and names are carried
as their UTF-8 byte sequences. -/

/-- A document value (spec §3, "Document"). -/
inductive BsonValue where
  | double (bits : Nat)
  | str (s : List Nat)
  | doc (elems : List (List Nat × BsonValue))
  | arr (vs : List BsonValue)
  | bin (subtype : Nat) (data : List Nat)
  | objectId (oid : List Nat)
  | boolean (b : Bool)
  | dateTime (millis : Nat)
  | null
  | regex (pat opts : List Nat)
  | int32 (v : Nat)
  | timestamp (v : Nat)
  | int64 (v : Nat)
  | decimal (lo hi : Nat)

/-- A document: an ordered sequence of named, typed fields. -/
abbrev BsonDoc := List (List Nat × BsonValue)

/-! ## The env-data scenario (C8)

`TestEnvData` (integration test, in the sources) drops collection `values`
of database `test` and inserts the documents of the `shareddata.FixedScalars`
provider one by one.  The provider and the query engine are not under the
provided sources and are modelled from the spec. -/

/-- Modelled from the spec: server state for the scenario — collections keyed
by (database, collection), each holding its documents in insertion order. -/
structure Server where
  colls : List ((String × String) × List BsonDoc)

/-- Documents of a collection, empty when the collection does not exist. -/
def getColl (s : Server) (db coll : String) : List BsonDoc :=
  (s.colls.lookup (db, coll)).getD []

/-- Replace (or create) a collection with the given document list. -/
def putColl (s : Server) (db coll : String) (docs : List BsonDoc) : Server :=
  ⟨((db, coll), docs) :: s.colls⟩

/-- Modelled from the spec: creating (or dropping and recreating) a collection
leaves it empty. -/
def createColl (s : Server) (db coll : String) : Server := putColl s db coll []

/-- Modelled from the spec: insert appends the document to the collection. -/
def insertOne (s : Server) (db coll : String) (d : BsonDoc) : Server :=
  putColl s db coll (getColl s db coll ++ [d])

/-- Modelled from the spec: a query with an empty filter returns every
document of the collection, in insertion order (the fixed, documented
ordering policy of this model). -/
def findAll (s : Server) (db coll : String) : List BsonDoc := getColl s db coll

/-- Modelled from the spec: the five fixed scalar documents of the
`shareddata.FixedScalars` provider, each with an `_id` string and a scalar
`v` (the provider itself is not under the provided sources; the spec's
scenario fixes the count at five). -/
def fixedScalarsDocs : List BsonDoc :=
  [ [([95, 105, 100], .str [100, 111, 117, 98, 108, 101]), ([118], .double 4631107791820423168)],
    [([95, 105, 100], .str [115, 116, 114, 105, 110, 103]), ([118], .str [102, 111, 111])],
    [([95, 105, 100], .str [98, 111, 111, 108]), ([118], .boolean true)],
    [([95, 105, 100], .str [105, 110, 116, 51, 50]), ([118], .int32 42)],
    [([95, 105, 100], .str [105, 110, 116, 54, 52]), ([118], .int64 42)] ]

/-- The env-data scenario: create collection `values` in database `test`,
then insert each provider document in order. -/
def envDataScenario (s : Server) : Server :=
  fixedScalarsDocs.foldl (fun s d => insertOne s "test" "values" d)
    (createColl s "test" "values")

/-- C8: after creating collection `values` in database `test` and inserting
the five documents, a query with an empty filter returns exactly five
documents — the inserted ones, in insertion order (the model's fixed,
documented ordering policy). -/
theorem envData_empty_filter_five (s : Server) :
    findAll (envDataScenario s) "test" "values" = fixedScalarsDocs ∧
    (findAll (envDataScenario s) "test" "values").length = 5 :=
  ⟨rfl, rfl⟩

/-! ## The binary document codec (C2)

Modelled from the spec: the codec itself is not under the provided sources.
The spec fixes the format — "typed, length-prefixed, little-endian fields
with null-terminated names", the standard binary document specification — so
the model below follows that format: a document is a 4-byte little-endian
total length, a sequence of elements (type tag, null-terminated name, typed
payload), and a terminating zero byte; arrays are documents keyed by decimal
indices; strings are length-prefixed and null-terminated; fixed-width numbers
are little-endian.  Bytes are `Nat`s below 256. -/

/-- Little-endian encoding of `x` in exactly `w` bytes. -/
def natLE : Nat → Nat → List Nat
  | 0, _ => []
  | w + 1, x => x % 256 :: natLE w (x / 256)

/-- Value of a little-endian byte sequence. -/
def leVal : List Nat → Nat
  | [] => 0
  | b :: bs => b + 256 * leVal bs

/-- Type tag of each value kind (standard binary document specification). -/
def tag : BsonValue → Nat
  | .double _ => 1
  | .str _ => 2
  | .doc _ => 3
  | .arr _ => 4
  | .bin _ _ => 5
  | .objectId _ => 7
  | .boolean _ => 8
  | .dateTime _ => 9
  | .null => 10
  | .regex _ _ => 11
  | .int32 _ => 16
  | .timestamp _ => 17
  | .int64 _ => 18
  | .decimal _ _ => 19

/-- Decimal digits of `n`, least significant first, as ASCII bytes; the first
argument is structural fuel (`n` itself always suffices). -/
def digitsRevAux : Nat → Nat → List Nat
  | 0, _ => []
  | _, 0 => []
  | f + 1, n => (n % 10 + 48) :: digitsRevAux f (n / 10)

/-- The decimal index key of array element `n` (ASCII bytes, no zero byte). -/
def decimalName (n : Nat) : List Nat :=
  if n = 0 then [48] else (digitsRevAux n n).reverse

/-- Frame a document body: 4-byte total length (body, length field and
terminator included), the body, a terminating zero byte. -/
def frameDoc (body : List Nat) : List Nat :=
  natLE 4 (body.length + 5) ++ body ++ [0]

mutual

/-- Payload bytes of one value (its tag is emitted by the element). -/
def encodeValue : BsonValue → List Nat
  | .double bits => natLE 8 bits
  | .str s => natLE 4 (s.length + 1) ++ s ++ [0]
  | .doc es => frameDoc (encodeElems es)
  | .arr vs => frameDoc (encodeArrElems 0 vs)
  | .bin sub data => natLE 4 data.length ++ [sub] ++ data
  | .objectId oid => oid
  | .boolean b => [if b then 1 else 0]
  | .dateTime ms => natLE 8 ms
  | .null => []
  | .regex p o => p ++ [0] ++ o ++ [0]
  | .int32 v => natLE 4 v
  | .timestamp v => natLE 8 v
  | .int64 v => natLE 8 v
  | .decimal lo hi => natLE 8 lo ++ natLE 8 hi

/-- Element sequence of a document body: tag, null-terminated name, payload. -/
def encodeElems : List (List Nat × BsonValue) → List Nat
  | [] => []
  | (n, v) :: rest => tag v :: (n ++ 0 :: encodeValue v) ++ encodeElems rest

/-- Element sequence of an array body: elements keyed by decimal indices
starting at `i`. -/
def encodeArrElems : Nat → List BsonValue → List Nat
  | _, [] => []
  | i, v :: vs => tag v :: (decimalName i ++ 0 :: encodeValue v) ++ encodeArrElems (i + 1) vs

end

/-- Encode a document: framed element sequence. -/
def encodeDoc (d : BsonDoc) : List Nat := frameDoc (encodeElems d)

/-- A byte: below 256. -/
def byteOk (b : Nat) : Bool := decide (b < 256)

/-- Bytes of a length-prefixed field: each below 256. -/
def bytesOk (s : List Nat) : Bool := s.all byteOk

/-- Bytes of a null-terminated field: each below 256 and nonzero. -/
def cstrOk (s : List Nat) : Bool := s.all (fun b => byteOk b && decide (b ≠ 0))

mutual

/-- Validity of one value: payloads fit their width, names and null-terminated
strings carry no zero byte, all bytes are bytes. -/
def validValue : BsonValue → Bool
  | .double bits => decide (bits < 256 ^ 8)
  | .str s => bytesOk s && decide (s.length + 1 < 256 ^ 4)
  | .doc es => validElems es
  | .arr vs => validArr vs
  | .bin sub data => byteOk sub && bytesOk data && decide (data.length < 256 ^ 4)
  | .objectId oid => bytesOk oid && decide (oid.length = 12)
  | .boolean _ => true
  | .dateTime ms => decide (ms < 256 ^ 8)
  | .null => true
  | .regex p o => cstrOk p && cstrOk o
  | .int32 v => decide (v < 256 ^ 4)
  | .timestamp v => decide (v < 256 ^ 8)
  | .int64 v => decide (v < 256 ^ 8)
  | .decimal lo hi => decide (lo < 256 ^ 8) && decide (hi < 256 ^ 8)

/-- Validity of a document's elements: valid names and valid values. -/
def validElems : List (List Nat × BsonValue) → Bool
  | [] => true
  | (n, v) :: rest => cstrOk n && validValue v && validElems rest

/-- Validity of an array's values. -/
def validArr : List BsonValue → Bool
  | [] => true
  | v :: vs => validValue v && validArr vs

end

/-- Validity of a document. -/
def validDoc (d : BsonDoc) : Bool := validElems d

/-- Read a `w`-byte little-endian number from the front of the stream. -/
def parseLE (w : Nat) (bs : List Nat) : Option (Nat × List Nat) :=
  if bs.length < w then none else some (leVal (bs.take w), bs.drop w)

/-- Read a null-terminated byte sequence from the front of the stream. -/
def parseCString : List Nat → Option (List Nat × List Nat)
  | [] => none
  | b :: rest =>
    if b = 0 then some ([], rest)
    else
      match parseCString rest with
      | none => none
      | some (s, r) => some (b :: s, r)

mutual

/-- Parse one value payload of the given type tag; `f` is parsing fuel
(any bound on the number of nested parsing steps). -/
def parseValue : Nat → Nat → List Nat → Option (BsonValue × List Nat)
  | 0, _, _ => none
  | f + 1, t, bs =>
    if t = 1 then (parseLE 8 bs).map (fun p => (BsonValue.double p.1, p.2))
    else if t = 2 then
      match parseLE 4 bs with
      | none => none
      | some (n, r) =>
        if n = 0 then none
        else if r.length < n then none
        else
          match r.drop (n - 1) with
          | 0 :: r2 => some (.str (r.take (n - 1)), r2)
          | _ => none
    else if t = 3 then
      if bs.length < 4 then none
      else
        match parseElems f (bs.drop 4) with
        | none => none
        | some (es, r) => some (.doc es, r)
    else if t = 4 then
      if bs.length < 4 then none
      else
        match parseElems f (bs.drop 4) with
        | none => none
        | some (es, r) => some (.arr (es.map Prod.snd), r)
    else if t = 5 then
      match parseLE 4 bs with
      | none => none
      | some (n, r) =>
        match r with
        | [] => none
        | sub :: r1 =>
          if r1.length < n then none else some (.bin sub (r1.take n), r1.drop n)
    else if t = 7 then
      if bs.length < 12 then none else some (.objectId (bs.take 12), bs.drop 12)
    else if t = 8 then
      match bs with
      | 0 :: r => some (.boolean false, r)
      | 1 :: r => some (.boolean true, r)
      | _ => none
    else if t = 9 then (parseLE 8 bs).map (fun p => (BsonValue.dateTime p.1, p.2))
    else if t = 10 then some (.null, bs)
    else if t = 11 then
      match parseCString bs with
      | none => none
      | some (p, r) =>
        match parseCString r with
        | none => none
        | some (o, r2) => some (.regex p o, r2)
    else if t = 16 then (parseLE 4 bs).map (fun p => (BsonValue.int32 p.1, p.2))
    else if t = 17 then (parseLE 8 bs).map (fun p => (BsonValue.timestamp p.1, p.2))
    else if t = 18 then (parseLE 8 bs).map (fun p => (BsonValue.int64 p.1, p.2))
    else if t = 19 then
      match parseLE 8 bs with
      | none => none
      | some (lo, r) =>
        match parseLE 8 r with
        | none => none
        | some (hi, r2) => some (.decimal lo hi, r2)
    else none

/-- Parse a document body's element sequence up to its terminating zero
byte. -/
def parseElems : Nat → List Nat → Option (List (List Nat × BsonValue) × List Nat)
  | 0, _ => none
  | f + 1, bs =>
    match bs with
    | [] => none
    | t :: rest =>
      if t = 0 then some ([], rest)
      else
        match parseCString rest with
        | none => none
        | some (name, r1) =>
          match parseValue f t r1 with
          | none => none
          | some (v, r2) =>
            match parseElems f r2 with
            | none => none
            | some (es, r3) => some ((name, v) :: es, r3)

end

/-- Decode a document: skip the redundant length prefix (the model is lenient
on it), parse elements to the terminator, and require the stream to be fully
consumed; the input length bounds the parsing fuel. -/
def decodeDoc (bs : List Nat) : Option BsonDoc :=
  if bs.length < 4 then none
  else
    match parseElems bs.length (bs.drop 4) with
    | some (es, []) => some es
    | _ => none

/-- The element list an array's encoded body decodes back to: the values
keyed by their decimal indices starting at `i`. -/
def arrNamed : Nat → List BsonValue → List (List Nat × BsonValue)
  | _, [] => []
  | i, v :: vs => (decimalName i, v) :: arrNamed (i + 1) vs

/-! ### Round-trip lemmas -/

theorem natLE_length (w x : Nat) : (natLE w x).length = w := by
  induction w generalizing x with
  | zero => rfl
  | succ w ih => simp [natLE, ih]

theorem leVal_natLE (w x : Nat) (h : x < 256 ^ w) : leVal (natLE w x) = x := by
  induction w generalizing x with
  | zero =>
    have : x = 0 := by simpa [Nat.lt_one_iff] using h
    simp [this, natLE, leVal]
  | succ w ih =>
    have hdiv : x / 256 < 256 ^ w := by
      rw [Nat.div_lt_iff_lt_mul (by omega)]
      calc x < 256 ^ (w + 1) := h
        _ = 256 ^ w * 256 := by ring
    simp [natLE, leVal, ih (x / 256) hdiv, Nat.mod_add_div]

theorem parseLE_encode (w x : Nat) (rest : List Nat) (h : x < 256 ^ w) :
    parseLE w (natLE w x ++ rest) = some (x, rest) := by
  unfold parseLE
  rw [if_neg (by simp [natLE_length]),
    List.take_left' (natLE_length w x), List.drop_left' (natLE_length w x),
    leVal_natLE w x h]

theorem parseCString_encode (s rest : List Nat) (h : ∀ b ∈ s, b ≠ 0) :
    parseCString (s ++ 0 :: rest) = some (s, rest) := by
  induction s with
  | nil => simp [parseCString]
  | cons b s' ih =>
    have hb : b ≠ 0 := h b (by simp)
    have htl : ∀ c ∈ s', c ≠ 0 := fun c hc => h c (by simp [hc])
    simp [parseCString, hb, ih htl]

theorem cstrOk_ne_zero (s : List Nat) (h : cstrOk s = true) : ∀ b ∈ s, b ≠ 0 := by
  simp only [cstrOk, byteOk, List.all_eq_true, Bool.and_eq_true, decide_eq_true_eq] at h
  exact fun b hb => (h b hb).2

theorem digitsRevAux_ge (f n b : Nat) (h : b ∈ digitsRevAux f n) : 48 ≤ b := by
  induction f generalizing n with
  | zero => simp [digitsRevAux] at h
  | succ f ih =>
    match n with
    | 0 => simp [digitsRevAux] at h
    | n + 1 =>
      simp only [digitsRevAux, List.mem_cons] at h
      rcases h with h | h
      · omega
      · exact ih _ h

theorem decimalName_ne_zero (n : Nat) : ∀ b ∈ decimalName n, b ≠ 0 := by
  intro b hb
  unfold decimalName at hb
  split at hb
  · simp at hb
    omega
  · rw [List.mem_reverse] at hb
    have := digitsRevAux_ge n n b hb
    omega

theorem tag_ne_zero (v : BsonValue) : tag v ≠ 0 := by
  cases v <;> simp [tag]

theorem arrNamed_map_snd (vs : List BsonValue) : ∀ i, (arrNamed i vs).map Prod.snd = vs := by
  induction vs with
  | nil => intro i; rfl
  | cons v vs ih => intro i; simp [arrNamed, ih]

theorem parseValue_double (f : Nat) (bs : List Nat) :
    parseValue (f + 1) 1 bs = (parseLE 8 bs).map (fun p => (BsonValue.double p.1, p.2)) := by
  simp [parseValue]

theorem parseValue_str (f : Nat) (bs : List Nat) :
    parseValue (f + 1) 2 bs =
      match parseLE 4 bs with
      | none => none
      | some (n, r) =>
        if n = 0 then none
        else if r.length < n then none
        else
          match r.drop (n - 1) with
          | 0 :: r2 => some (.str (r.take (n - 1)), r2)
          | _ => none := by
  simp [parseValue]

theorem parseValue_doc (f : Nat) (bs : List Nat) :
    parseValue (f + 1) 3 bs =
      if bs.length < 4 then none
      else
        match parseElems f (bs.drop 4) with
        | none => none
        | some (es, r) => some (.doc es, r) := by
  simp [parseValue]

theorem parseValue_arr (f : Nat) (bs : List Nat) :
    parseValue (f + 1) 4 bs =
      if bs.length < 4 then none
      else
        match parseElems f (bs.drop 4) with
        | none => none
        | some (es, r) => some (.arr (es.map Prod.snd), r) := by
  simp [parseValue]

theorem parseValue_bin (f : Nat) (bs : List Nat) :
    parseValue (f + 1) 5 bs =
      match parseLE 4 bs with
      | none => none
      | some (n, r) =>
        match r with
        | [] => none
        | sub :: r1 =>
          if r1.length < n then none else some (.bin sub (r1.take n), r1.drop n) := by
  simp [parseValue]

theorem parseValue_objectId (f : Nat) (bs : List Nat) :
    parseValue (f + 1) 7 bs =
      if bs.length < 12 then none else some (.objectId (bs.take 12), bs.drop 12) := by
  simp [parseValue]

theorem parseValue_dateTime (f : Nat) (bs : List Nat) :
    parseValue (f + 1) 9 bs = (parseLE 8 bs).map (fun p => (BsonValue.dateTime p.1, p.2)) := by
  simp [parseValue]

theorem parseValue_regex (f : Nat) (bs : List Nat) :
    parseValue (f + 1) 11 bs =
      match parseCString bs with
      | none => none
      | some (p, r) =>
        match parseCString r with
        | none => none
        | some (o, r2) => some (.regex p o, r2) := by
  simp [parseValue]

theorem parseValue_int32 (f : Nat) (bs : List Nat) :
    parseValue (f + 1) 16 bs = (parseLE 4 bs).map (fun p => (BsonValue.int32 p.1, p.2)) := by
  simp [parseValue]

theorem parseValue_timestamp (f : Nat) (bs : List Nat) :
    parseValue (f + 1) 17 bs = (parseLE 8 bs).map (fun p => (BsonValue.timestamp p.1, p.2)) := by
  simp [parseValue]

theorem parseValue_int64 (f : Nat) (bs : List Nat) :
    parseValue (f + 1) 18 bs = (parseLE 8 bs).map (fun p => (BsonValue.int64 p.1, p.2)) := by
  simp [parseValue]

theorem parseValue_decimal (f : Nat) (bs : List Nat) :
    parseValue (f + 1) 19 bs =
      match parseLE 8 bs with
      | none => none
      | some (lo, r) =>
        match parseLE 8 r with
        | none => none
        | some (hi, r2) => some (.decimal lo hi, r2) := by
  simp [parseValue]

theorem parseElems_step (f t : Nat) (ht : t ≠ 0) (bs : List Nat) :
    parseElems (f + 1) (t :: bs) =
      match parseCString bs with
      | none => none
      | some (name, r1) =>
        match parseValue f t r1 with
        | none => none
        | some (v, r2) =>
          match parseElems f r2 with
          | none => none
          | some (es, r3) => some ((name, v) :: es, r3) := by
  simp [parseElems, ht]

/-- Parsing inverts encoding, for values, document element sequences and
array element sequences alike, given enough fuel (one more than the encoded
length always suffices). -/
theorem parse_encode (f : Nat) :
    (∀ v rest, validValue v = true → (encodeValue v).length + 1 ≤ f →
      parseValue f (tag v) (encodeValue v ++ rest) = some (v, rest)) ∧
    (∀ es rest, validElems es = true → (encodeElems es).length + 1 ≤ f →
      parseElems f (encodeElems es ++ 0 :: rest) = some (es, rest)) ∧
    (∀ i vs rest, validArr vs = true → (encodeArrElems i vs).length + 1 ≤ f →
      parseElems f (encodeArrElems i vs ++ 0 :: rest) = some (arrNamed i vs, rest)) := by
  induction f with
  | zero =>
    exact ⟨fun _ _ _ h => absurd h (Nat.not_succ_le_zero _),
           fun _ _ _ h => absurd h (Nat.not_succ_le_zero _),
           fun _ _ _ _ h => absurd h (Nat.not_succ_le_zero _)⟩
  | succ f ih =>
    obtain ⟨ihv, ihe, iha⟩ := ih
    refine ⟨?_, ?_, ?_⟩
    · intro v rest hval hlen
      cases v with
      | double bits =>
        have hb : bits < 256 ^ 8 := by simpa [validValue] using hval
        show parseValue (f + 1) 1 (natLE 8 bits ++ rest) = some (.double bits, rest)
        rw [parseValue_double, parseLE_encode 8 bits rest hb]
        rfl
      | str s =>
        simp only [validValue, Bool.and_eq_true, decide_eq_true_eq] at hval
        obtain ⟨-, h4⟩ := hval
        show parseValue (f + 1) 2 ((natLE 4 (s.length + 1) ++ s ++ [0]) ++ rest)
          = some (.str s, rest)
        have e1 : (natLE 4 (s.length + 1) ++ s ++ [0]) ++ rest
            = natLE 4 (s.length + 1) ++ (s ++ 0 :: rest) := by simp
        rw [e1, parseValue_str, parseLE_encode 4 (s.length + 1) (s ++ 0 :: rest) h4]
        show (if s.length + 1 = 0 then none
          else if (s ++ 0 :: rest).length < s.length + 1 then none
          else match (s ++ 0 :: rest).drop (s.length + 1 - 1) with
            | 0 :: r2 => some (BsonValue.str ((s ++ 0 :: rest).take (s.length + 1 - 1)), r2)
            | _ => none) = some (BsonValue.str s, rest)
        rw [if_neg (by omega)]
        rw [if_neg (by simp only [List.length_append, List.length_cons]; omega)]
        simp [List.take_left, List.drop_left]
      | doc es =>
        simp only [validValue] at hval
        have hlen' : (encodeElems es).length + 1 ≤ f := by
          have he : (encodeValue (.doc es)).length = (encodeElems es).length + 5 := by
            simp [encodeValue, frameDoc, natLE_length]
            omega
          omega
        show parseValue (f + 1) 3 (frameDoc (encodeElems es) ++ rest) = some (.doc es, rest)
        have e1 : frameDoc (encodeElems es) ++ rest
            = natLE 4 ((encodeElems es).length + 5) ++ (encodeElems es ++ 0 :: rest) := by
          simp [frameDoc]
        rw [e1, parseValue_doc]
        rw [if_neg (by simp only [List.length_append, natLE_length]; omega)]
        rw [List.drop_left' (natLE_length 4 _), ihe es rest hval hlen']
      | arr vs =>
        simp only [validValue] at hval
        have hlen' : (encodeArrElems 0 vs).length + 1 ≤ f := by
          have he : (encodeValue (.arr vs)).length = (encodeArrElems 0 vs).length + 5 := by
            simp [encodeValue, frameDoc, natLE_length]
            omega
          omega
        show parseValue (f + 1) 4 (frameDoc (encodeArrElems 0 vs) ++ rest) = some (.arr vs, rest)
        have e1 : frameDoc (encodeArrElems 0 vs) ++ rest
            = natLE 4 ((encodeArrElems 0 vs).length + 5) ++ (encodeArrElems 0 vs ++ 0 :: rest) := by
          simp [frameDoc]
        rw [e1, parseValue_arr]
        rw [if_neg (by simp only [List.length_append, natLE_length]; omega)]
        rw [List.drop_left' (natLE_length 4 _), iha 0 vs rest hval hlen']
        simp [arrNamed_map_snd]
      | bin sub data =>
        simp only [validValue, Bool.and_eq_true, decide_eq_true_eq] at hval
        obtain ⟨-, h4⟩ := hval
        show parseValue (f + 1) 5 ((natLE 4 data.length ++ [sub] ++ data) ++ rest)
          = some (.bin sub data, rest)
        have e1 : (natLE 4 data.length ++ [sub] ++ data) ++ rest
            = natLE 4 data.length ++ (sub :: (data ++ rest)) := by simp
        rw [e1, parseValue_bin, parseLE_encode 4 data.length (sub :: (data ++ rest)) h4]
        show (if (data ++ rest).length < data.length then none
          else some (BsonValue.bin sub ((data ++ rest).take data.length),
            (data ++ rest).drop data.length))
          = some (BsonValue.bin sub data, rest)
        rw [if_neg (by simp only [List.length_append]; omega)]
        simp [List.take_left, List.drop_left]
      | objectId oid =>
        simp only [validValue, Bool.and_eq_true, decide_eq_true_eq] at hval
        obtain ⟨-, h12⟩ := hval
        show parseValue (f + 1) 7 (oid ++ rest) = some (.objectId oid, rest)
        rw [parseValue_objectId]
        rw [if_neg (by simp only [List.length_append]; omega)]
        rw [List.take_left' h12, List.drop_left' h12]
      | boolean b => cases b <;> rfl
      | dateTime ms =>
        have hb : ms < 256 ^ 8 := by simpa [validValue] using hval
        show parseValue (f + 1) 9 (natLE 8 ms ++ rest) = some (.dateTime ms, rest)
        rw [parseValue_dateTime, parseLE_encode 8 ms rest hb]
        rfl
      | null => rfl
      | regex p o =>
        simp only [validValue, Bool.and_eq_true] at hval
        obtain ⟨hp, ho⟩ := hval
        show parseValue (f + 1) 11 ((p ++ [0] ++ o ++ [0]) ++ rest) = some (.regex p o, rest)
        have e1 : (p ++ [0] ++ o ++ [0]) ++ rest = p ++ 0 :: (o ++ 0 :: rest) := by simp
        rw [e1, parseValue_regex]
        simp only [parseCString_encode p (o ++ 0 :: rest) (cstrOk_ne_zero p hp),
          parseCString_encode o rest (cstrOk_ne_zero o ho)]
      | int32 v =>
        have hb : v < 256 ^ 4 := by simpa [validValue] using hval
        show parseValue (f + 1) 16 (natLE 4 v ++ rest) = some (.int32 v, rest)
        rw [parseValue_int32, parseLE_encode 4 v rest hb]
        rfl
      | timestamp v =>
        have hb : v < 256 ^ 8 := by simpa [validValue] using hval
        show parseValue (f + 1) 17 (natLE 8 v ++ rest) = some (.timestamp v, rest)
        rw [parseValue_timestamp, parseLE_encode 8 v rest hb]
        rfl
      | int64 v =>
        have hb : v < 256 ^ 8 := by simpa [validValue] using hval
        show parseValue (f + 1) 18 (natLE 8 v ++ rest) = some (.int64 v, rest)
        rw [parseValue_int64, parseLE_encode 8 v rest hb]
        rfl
      | decimal lo hi =>
        simp only [validValue, Bool.and_eq_true, decide_eq_true_eq] at hval
        obtain ⟨hlo, hhi⟩ := hval
        show parseValue (f + 1) 19 ((natLE 8 lo ++ natLE 8 hi) ++ rest) = some (.decimal lo hi, rest)
        rw [List.append_assoc, parseValue_decimal]
        simp only [parseLE_encode 8 lo (natLE 8 hi ++ rest) hlo,
          parseLE_encode 8 hi rest hhi]
    · intro es rest hval hlen
      match es with
      | [] => rfl
      | (n, v) :: es' =>
        simp only [validElems, Bool.and_eq_true] at hval
        obtain ⟨⟨hn, hv⟩, hes'⟩ := hval
        simp only [encodeElems, List.length_cons, List.length_append] at hlen
        have lv : (encodeValue v).length + 1 ≤ f := by omega
        have le' : (encodeElems es').length + 1 ≤ f := by omega
        show parseElems (f + 1)
          ((tag v :: (n ++ 0 :: encodeValue v) ++ encodeElems es') ++ 0 :: rest)
          = some ((n, v) :: es', rest)
        have e1 : (tag v :: (n ++ 0 :: encodeValue v) ++ encodeElems es') ++ 0 :: rest
            = tag v :: (n ++ 0 :: (encodeValue v ++ (encodeElems es' ++ 0 :: rest))) := by
          simp
        rw [e1, parseElems_step f (tag v) (tag_ne_zero v)]
        simp only [parseCString_encode n (encodeValue v ++ (encodeElems es' ++ 0 :: rest))
            (cstrOk_ne_zero n hn),
          ihv v (encodeElems es' ++ 0 :: rest) hv lv,
          ihe es' rest hes' le']
    · intro i vs rest hval hlen
      match vs with
      | [] => rfl
      | v :: vs' =>
        simp only [validArr, Bool.and_eq_true] at hval
        obtain ⟨hv, hvs'⟩ := hval
        simp only [encodeArrElems, List.length_cons, List.length_append] at hlen
        have lv : (encodeValue v).length + 1 ≤ f := by omega
        have la' : (encodeArrElems (i + 1) vs').length + 1 ≤ f := by omega
        show parseElems (f + 1)
          ((tag v :: (decimalName i ++ 0 :: encodeValue v) ++ encodeArrElems (i + 1) vs') ++ 0 :: rest)
          = some (arrNamed i (v :: vs'), rest)
        have e1 : (tag v :: (decimalName i ++ 0 :: encodeValue v) ++ encodeArrElems (i + 1) vs') ++ 0 :: rest
            = tag v :: (decimalName i ++ 0 :: (encodeValue v ++ (encodeArrElems (i + 1) vs' ++ 0 :: rest))) := by
          simp
        rw [e1, parseElems_step f (tag v) (tag_ne_zero v)]
        simp only [parseCString_encode (decimalName i)
            (encodeValue v ++ (encodeArrElems (i + 1) vs' ++ 0 :: rest)) (decimalName_ne_zero i),
          ihv v (encodeArrElems (i + 1) vs' ++ 0 :: rest) hv lv,
          iha (i + 1) vs' rest hvs' la', arrNamed]

/-- C2: the binary codec round-trips — for every valid document `d`,
`decode (encode d)` yields a value equal to `d`, and re-encoding the decoded
document is byte-identical to `encode d`. -/
theorem codec_round_trip (d : BsonDoc) (h : validDoc d = true) :
    decodeDoc (encodeDoc d) = some d ∧
    (decodeDoc (encodeDoc d)).map encodeDoc = some (encodeDoc d) := by
  have hlen : (encodeDoc d).length = (encodeElems d).length + 5 := by
    simp [encodeDoc, frameDoc, natLE_length]
    omega
  have hfirst : decodeDoc (encodeDoc d) = some d := by
    unfold decodeDoc
    rw [if_neg (by omega)]
    have e1 : (encodeDoc d).drop 4 = encodeElems d ++ 0 :: [] := by
      show (natLE 4 ((encodeElems d).length + 5) ++ encodeElems d ++ [0]).drop 4
        = encodeElems d ++ 0 :: []
      rw [List.append_assoc, List.drop_left' (natLE_length 4 _)]
    rw [e1, (parse_encode (encodeDoc d).length).2.1 d [] h (by omega)]
  exact ⟨hfirst, by rw [hfirst]; rfl⟩

/-- A document exercising every supported value kind: identifier, double,
string (with an embedded zero byte), nested document, nested array (itself
containing an array), binary, date-time, regex, null, 32-bit and 64-bit
integers, timestamp and decimal. -/
def allKindsDoc : BsonDoc :=
  [ ([95, 105, 100], .objectId [1, 2, 3, 4, 5, 6, 7, 8, 9, 10, 11, 12]),
    ([100], .double 4631107791820423168),
    ([115], .str [102, 111, 0, 111]),
    ([110], .doc [([120], .int32 7), ([121], .null)]),
    ([97], .arr [.boolean true, .str [], .arr [.int64 9]]),
    ([98], .bin 128 [0, 255, 3]),
    ([116], .dateTime 123456789),
    ([114], .regex [97, 98] [105]),
    ([105, 51, 50], .int32 4294967295),
    ([116, 115], .timestamp 77),
    ([105, 54, 52], .int64 18446744073709551615),
    ([100, 99], .decimal 5 6) ]

set_option maxRecDepth 100000 in
/-- Witness for `codec_round_trip` at `allKindsDoc`. -/
theorem codec_round_trip_witness :
    validDoc allKindsDoc = true ∧
    decodeDoc (encodeDoc allKindsDoc) = some allKindsDoc ∧
    (decodeDoc (encodeDoc allKindsDoc)).map encodeDoc = some (encodeDoc allKindsDoc) :=
  ⟨rfl, (codec_round_trip allKindsDoc rfl).1, (codec_round_trip allKindsDoc rfl).2⟩

end FerretDB
